import Mathlib

/-!
Verification of the agentic conversation loop of the Agentic-LMMS repository
(`src/core/AgentManager.cpp`, `src/core/AgentTools.cpp`).

The C++ code is shallowly embedded: Qt JSON values become an inductive
`JValue`, `QJsonObject` becomes an association list `JObj`, the streaming
accumulator and the manager's member state become Lean structures, and the
Qt signal emissions become values of an `AgentEvent` list returned next to
the updated state.  `QJsonDocument::fromJson` (the JSON text parser used
once at stream end on the concatenated tool-call argument fragments) is
kept abstract as a parameter `parse : String → JValue`.
-/

namespace AgenticLMMS

/-! ## JSON model (QJsonValue / QJsonObject / QJsonArray) -/

/-- A JSON value as stored in a `QJsonValue`.  A missing key reads as
`null` here, which makes `toInt` / `toString` / `toArray` / `toObject`
return the same defaults Qt returns for `Undefined`. -/
inductive JValue where
  | null : JValue
  | bool (b : Bool) : JValue
  | num (n : Int) : JValue
  | str (s : String) : JValue
  | arr (xs : List JValue) : JValue
  | obj (fields : List (String × JValue)) : JValue

/-- A `QJsonObject`: an association list of key/value pairs. -/
def JObj := List (String × JValue)

/-- `QJsonObject::contains(key)`. -/
def JObj.contains : JObj → String → Bool
  | [], _ => false
  | (k', _) :: rest, k => if k' = k then true else JObj.contains rest k

/-- `object[key]`: the stored value, or null (Undefined) when absent. -/
def JObj.getVal : JObj → String → JValue
  | [], _ => .null
  | (k', v) :: rest, k => if k' = k then v else JObj.getVal rest k

/-- `object[key] = value`: replace the value under `key`, inserting the
pair when the key is absent. -/
def JObj.set : JObj → String → JValue → JObj
  | [], k, v => [(k, v)]
  | (k', v') :: rest, k, v =>
      if k' = k then (k, v) :: rest else (k', v') :: JObj.set rest k v

/-- `QJsonValue::toInt()` (default 0). -/
def JValue.toInt : JValue → Int
  | .num n => n
  | _ => 0

theorem JValue.toInt_num (n : Int) : (JValue.num n).toInt = n := rfl

/-- `QJsonValue::toString()` (default empty). -/
def JValue.toStr : JValue → String
  | .str s => s
  | _ => ""

/-- `QJsonValue::toArray()` (default empty). -/
def JValue.toArray : JValue → List JValue
  | .arr xs => xs
  | _ => []

/-- `QJsonValue::toObject()` (default empty). -/
def JValue.toObject : JValue → JObj
  | .obj fs => fs
  | _ => []

theorem JObj.getVal_set_self (o : JObj) (k : String) (v : JValue) :
    (o.set k v).getVal k = v := by
  induction o with
  | nil => simp [JObj.set, JObj.getVal]
  | cons p rest ih =>
      by_cases h : p.1 = k
      · simp [JObj.set, JObj.getVal, h]
      · simp [JObj.set, JObj.getVal, h, ih]

theorem JObj.getVal_set_ne (o : JObj) (k k' : String) (v : JValue)
    (h : k ≠ k') : (o.set k v).getVal k' = o.getVal k' := by
  induction o with
  | nil => simp [JObj.set, JObj.getVal, h]
  | cons p rest ih =>
      by_cases hp : p.1 = k
      · simp [JObj.set, JObj.getVal, hp, h]
      · simp only [JObj.set, hp, if_false]
        by_cases hp' : p.1 = k'
        · simp [JObj.getVal, hp']
        · simp [JObj.getVal, hp', ih]

/-! ## Stream accumulator (`m_accumulatedContent`, `m_accumulatedThinking`,
`m_accumulatedToolCalls`) and `AgentManager::processStreamingChunk` -/

/-- The per-request accumulators of `AgentManager`. -/
structure StreamAcc where
  content : String
  thinking : String
  toolCalls : List JObj

/-- Accumulator state right after `sendApiRequest` resets it. -/
def initialAcc : StreamAcc := { content := "", thinking := "", toolCalls := [] }

/-- The placeholder slot appended by the growth loop in
`processStreamingChunk` (`emptyTc`): empty id, empty function name, empty
argument string. -/
def emptyToolCall : JObj :=
  [("id", .str ""), ("function", .obj [("name", .str ""), ("arguments", .str "")])]

/-- The `while (m_accumulatedToolCalls.size() <= index)` growth loop,
written as its net effect: append placeholder entries until slot `index`
exists (one `emptyTc` per iteration of the source loop). -/
def growTo (acc : List JObj) (index : Nat) : List JObj :=
  acc ++ List.replicate (index + 1 - acc.length) emptyToolCall

/-- Events emitted by the manager (its Qt signals). -/
inductive AgentEvent where
  | responseReceived (s : String)
  | streamingChunkReceived (s : String)
  | thinkingChunkReceived (s : String)
  | streamingStarted
  | streamingFinished
  | toolCallStarted (name : String) (args : JObj)
  | toolCallCompleted (name : String) (result : String)
  | errorOccurred (msg : String)
  | processingStarted
  | processingFinished

/-- The non-empty-`id` merge in `processStreamingChunk`:
`if (tc.contains("id") && !tc["id"].toString().isEmpty()) existingTc["id"] = …`. -/
def updateId (tc existingTc : JObj) : JObj :=
  if tc.contains "id" = true ∧ ¬(tc.getVal "id").toStr = "" then
    existingTc.set "id" (.str (tc.getVal "id").toStr)
  else existingTc

/-- The non-empty-`name` merge on the `function` sub-object. -/
def nameStep (funcDelta f0 : JObj) : JObj :=
  if funcDelta.contains "name" = true ∧ ¬(funcDelta.getVal "name").toStr = "" then
    f0.set "name" (.str (funcDelta.getVal "name").toStr)
  else f0

/-- The `function` sub-object merge in `processStreamingChunk`: overwrite
`name` when a non-empty name delta arrives, and append the `arguments`
fragment to the buffered argument string. -/
def updateFunc (funcDelta f0 : JObj) : JObj :=
  let f1 := nameStep funcDelta f0
  if funcDelta.contains "arguments" = true then
    f1.set "arguments" (.str ((f1.getVal "arguments").toStr ++ (funcDelta.getVal "arguments").toStr))
  else f1

/-- Merging one `tool_calls` delta element into the existing slot object. -/
def updateToolCall (tc existingTc : JObj) : JObj :=
  let tc1 := updateId tc existingTc
  if tc.contains "function" = true then
    tc1.set "function" (.obj (updateFunc (tc.getVal "function").toObject (tc1.getVal "function").toObject))
  else tc1

/-- The body of the `for (tcValue : toolCallsArray)` loop in
`processStreamingChunk`: grow the accumulator to cover `index`, then merge
the delta into the addressed slot.  A negative `index` would be an
out-of-range `QJsonArray` access (never produced by the protocol); it is
modelled as a no-op. -/
def applyToolCallDelta (acc : List JObj) (tcv : JValue) : List JObj :=
  let tc := tcv.toObject
  let index := (tc.getVal "index").toInt
  if index < 0 then acc
  else
    let idx := index.toNat
    let acc1 := growTo acc idx
    acc1.set idx (updateToolCall tc (acc1.getD idx emptyToolCall))

/-- The `delta.contains("content")` block of `processStreamingChunk`:
append the non-empty content chunk and emit `streamingChunkReceived`. -/
def contentStep (acc : StreamAcc) (delta : JObj) : StreamAcc × List AgentEvent :=
  if delta.contains "content" then
    let c := (delta.getVal "content").toStr
    if ¬c = "" then
      ({ acc with content := acc.content ++ c }, [.streamingChunkReceived c])
    else (acc, [])
  else (acc, [])

/-- The `reasoning`/`thinking` block of `processStreamingChunk` (the two
keys are synonyms, `reasoning` checked first). -/
def thinkingStep (acc : StreamAcc) (delta : JObj) : StreamAcc × List AgentEvent :=
  if delta.contains "reasoning" ∨ delta.contains "thinking" then
    let key := if delta.contains "reasoning" then "reasoning" else "thinking"
    let t := (delta.getVal key).toStr
    if ¬t = "" then
      ({ acc with thinking := acc.thinking ++ t }, [.thinkingChunkReceived t])
    else (acc, [])
  else (acc, [])

/-- The `delta.contains("tool_calls")` block of `processStreamingChunk`:
merge every element of the delta array into the accumulated slots. -/
def toolCallsStep (acc : StreamAcc) (delta : JObj) : StreamAcc :=
  if delta.contains "tool_calls" then
    { acc with toolCalls := ((delta.getVal "tool_calls").toArray).foldl applyToolCallDelta acc.toolCalls }
  else acc

/-- `AgentManager::processStreamingChunk`: handle one parsed SSE payload
object.  Returns the updated accumulators and the emitted events. -/
def processStreamingChunk (acc : StreamAcc) (chunk : JObj) : StreamAcc × List AgentEvent :=
  if chunk.contains "error" then
    (acc, [.errorOccurred ("API error: " ++ ((chunk.getVal "error").toObject.getVal "message").toStr)])
  else
    match (chunk.getVal "choices").toArray with
    | [] => (acc, [])
    | choice :: _ =>
      let delta := (choice.toObject.getVal "delta").toObject
      let s1 := contentStep acc delta
      let s2 := thinkingStep s1.1 delta
      (toolCallsStep s2.1 delta, s1.2 ++ s2.2)

/-- Folding a whole stream of parsed chunk objects through the
accumulator (the net accumulator effect of `onStreamingReadyRead`). -/
def processChunks (acc : StreamAcc) (chunks : List JObj) : StreamAcc :=
  chunks.foldl (fun a c => (processStreamingChunk a c).1) acc

/-! ## Fragment bookkeeping for the streaming claims -/

/-- Concatenation of a list of strings in order. -/
def strConcat : List String → String
  | [] => ""
  | s :: rest => s ++ strConcat rest

/-- The argument string currently buffered in tool-call slot `i` (empty
for a slot that has not been materialized). -/
def slotArgString (acc : List JObj) (i : Nat) : String :=
  (((acc.getD i emptyToolCall).getVal "function").toObject.getVal "arguments").toStr

/-- The `function.arguments` fragment carried for slot `i` by one element
of a `tool_calls` delta array (empty when the element addresses another
slot or carries no arguments fragment). -/
def entryArgFragment (i : Nat) (tcv : JValue) : String :=
  let tc := tcv.toObject
  if (tc.getVal "index").toInt = (i : Int) ∧ tc.contains "function" = true
      ∧ ((tc.getVal "function").toObject.contains "arguments") = true then
    ((tc.getVal "function").toObject.getVal "arguments").toStr
  else ""

/-- All `function.arguments` fragments delivered for slot `i` by one SSE
chunk, concatenated. -/
def chunkArgFragments (i : Nat) (chunk : JObj) : String :=
  match (chunk.getVal "choices").toArray with
  | [] => ""
  | choice :: _ =>
    let delta := (choice.toObject.getVal "delta").toObject
    strConcat (((delta.getVal "tool_calls").toArray).map (entryArgFragment i))

/-- The `content` fragment carried by one SSE chunk's `choices[0].delta`
(empty when absent). -/
def chunkContentFragment (chunk : JObj) : String :=
  match (chunk.getVal "choices").toArray with
  | [] => ""
  | choice :: _ => (((choice.toObject.getVal "delta").toObject).getVal "content").toStr

/-! ### Association-list and slot helper lemmas -/

theorem JObj.getVal_eq_null_of_not_contains (o : JObj) (k : String)
    (h : o.contains k = false) : o.getVal k = .null := by
  induction o with
  | nil => rfl
  | cons p rest ih =>
      by_cases hp : p.1 = k
      · simp [JObj.contains, hp] at h
      · simp only [JObj.contains, hp, if_false] at h
        simp [JObj.getVal, hp, ih h]

theorem getD_replicate {α : Type} (x : α) (k i : Nat) :
    (List.replicate k x).getD i x = x := by
  induction k generalizing i with
  | zero => simp
  | succ k ih => cases i <;> simp [List.replicate, ih]

theorem getD_append_fill {α : Type} (x : α) (l : List α) (k i : Nat) :
    (l ++ List.replicate k x).getD i x = l.getD i x := by
  induction l generalizing i with
  | nil => simp [getD_replicate x k i]
  | cons a rest ih =>
      cases i with
      | zero => rfl
      | succ n => simpa using ih n

theorem getD_set_ne {α : Type} (l : List α) (i j : Nat) (v : α) (d : α)
    (h : ¬i = j) : (l.set i v).getD j d = l.getD j d := by
  induction l generalizing i j with
  | nil => simp
  | cons a rest ih =>
      cases i with
      | zero => cases j with
        | zero => exact absurd rfl h
        | succ j => simp
      | succ i => cases j with
        | zero => simp
        | succ j => simpa using ih i j (by omega)

theorem getD_set_self {α : Type} (l : List α) (i : Nat) (v : α) (d : α)
    (h : i < l.length) : (l.set i v).getD i d = v := by
  induction l generalizing i with
  | nil => simp at h
  | cons a rest ih =>
      cases i with
      | zero => simp
      | succ i => simpa using ih i (by simpa using h)

theorem getD_growTo (acc : List JObj) (idx i : Nat) :
    (growTo acc idx).getD i emptyToolCall = acc.getD i emptyToolCall :=
  getD_append_fill emptyToolCall acc (idx + 1 - acc.length) i

theorem length_growTo (acc : List JObj) (idx : Nat) :
    (growTo acc idx).length = max acc.length (idx + 1) := by
  simp [growTo]
  omega

theorem slotArgString_nil (i : Nat) : slotArgString [] i = "" := by
  cases i <;> rfl

/-! ### Slot argument accumulation is string concatenation -/

/-- The buffered argument string of a slot object. -/
def objArgString (t : JObj) : String :=
  ((t.getVal "function").toObject.getVal "arguments").toStr

theorem toObject_obj (fs : JObj) : (JValue.obj fs).toObject = fs := rfl

theorem slotArgString_eq_objArgString (acc : List JObj) (i : Nat) :
    slotArgString acc i = objArgString (acc.getD i emptyToolCall) := rfl

theorem slotArg_growTo (acc : List JObj) (idx i : Nat) :
    slotArgString (growTo acc idx) i = slotArgString acc i := by
  rw [slotArgString_eq_objArgString, getD_growTo, ← slotArgString_eq_objArgString]

theorem getVal_updateId_function (tc t : JObj) :
    (updateId tc t).getVal "function" = t.getVal "function" := by
  unfold updateId
  by_cases hc : tc.contains "id" = true ∧ ¬(tc.getVal "id").toStr = ""
  · simp only [hc, if_true]
    exact JObj.getVal_set_ne t "id" "function" _ (by decide)
  · simp [hc]

theorem getVal_nameStep_arguments (fd f0 : JObj) :
    (nameStep fd f0).getVal "arguments" = f0.getVal "arguments" := by
  unfold nameStep
  by_cases hn : fd.contains "name" = true ∧ ¬(fd.getVal "name").toStr = ""
  · simp only [hn, if_true]
    exact JObj.getVal_set_ne f0 "name" "arguments" _ (by decide)
  · simp [hn]

theorem getVal_updateFunc_arguments (fd f0 : JObj) :
    (updateFunc fd f0).getVal "arguments"
      = if fd.contains "arguments" = true then
          .str ((f0.getVal "arguments").toStr ++ (fd.getVal "arguments").toStr)
        else f0.getVal "arguments" := by
  unfold updateFunc
  by_cases ha : fd.contains "arguments" = true
  · simp [ha, JObj.getVal_set_self, getVal_nameStep_arguments]
  · simp [ha, getVal_nameStep_arguments]

theorem argString_updateToolCall (tc t : JObj) :
    objArgString (updateToolCall tc t)
      = objArgString t
        ++ (if tc.contains "function" = true
              ∧ ((tc.getVal "function").toObject.contains "arguments") = true then
            (((tc.getVal "function").toObject).getVal "arguments").toStr
          else "") := by
  unfold updateToolCall
  by_cases hfun : tc.contains "function" = true
  · simp only [hfun, if_true, true_and]
    unfold objArgString
    rw [JObj.getVal_set_self, toObject_obj, getVal_updateFunc_arguments,
      getVal_updateId_function]
    by_cases harg : ((tc.getVal "function").toObject.contains "arguments") = true
    · simp only [harg, if_true, JValue.toStr]
    · simp [harg, String.append_empty]
  · simp [hfun, objArgString, getVal_updateId_function, String.append_empty]

theorem slotArg_applyToolCallDelta (acc : List JObj) (tcv : JValue) (i : Nat) :
    slotArgString (applyToolCallDelta acc tcv) i
      = slotArgString acc i ++ entryArgFragment i tcv := by
  unfold applyToolCallDelta entryArgFragment
  by_cases hneg : ((tcv.toObject.getVal "index").toInt) < 0
  · have hne : ¬(tcv.toObject.getVal "index").toInt = (i : Int) := by omega
    simp [hneg, hne, String.append_empty]
  · simp only [hneg, if_false]
    by_cases hidx : (tcv.toObject.getVal "index").toInt = (i : Int)
    · have htoNat : ((tcv.toObject.getVal "index").toInt).toNat = i := by omega
      rw [htoNat]
      have hlen : i < (growTo acc i).length := by
        rw [length_growTo]; omega
      rw [slotArgString_eq_objArgString, getD_set_self _ _ _ _ hlen,
        argString_updateToolCall, ← slotArgString_eq_objArgString, slotArg_growTo]
      simp [hidx]
    · have hne : ¬((tcv.toObject.getVal "index").toInt).toNat = i := by omega
      rw [slotArgString_eq_objArgString, getD_set_ne _ _ _ _ _ hne,
        ← slotArgString_eq_objArgString, slotArg_growTo]
      simp [hidx, String.append_empty]

theorem slotArg_foldl (entries : List JValue) (acc : List JObj) (i : Nat) :
    slotArgString (entries.foldl applyToolCallDelta acc) i
      = slotArgString acc i ++ strConcat (entries.map (entryArgFragment i)) := by
  induction entries generalizing acc with
  | nil => simp [strConcat, String.append_empty]
  | cons e rest ih =>
      simp only [List.foldl_cons, List.map_cons, strConcat]
      rw [ih, slotArg_applyToolCallDelta, String.append_assoc]

/-! ### Per-chunk accumulator equations -/

theorem contentStep_content (acc : StreamAcc) (delta : JObj) :
    (contentStep acc delta).1.content = acc.content ++ (delta.getVal "content").toStr := by
  unfold contentStep
  by_cases hc : delta.contains "content" = true
  · by_cases hne : (delta.getVal "content").toStr = ""
    · simp [hc, hne, String.append_empty]
    · simp [hc, hne]
  · have h0 : delta.getVal "content" = .null :=
      JObj.getVal_eq_null_of_not_contains _ _ (by simpa using hc)
    simp [hc, h0, JValue.toStr, String.append_empty]

theorem contentStep_thinking (acc : StreamAcc) (delta : JObj) :
    (contentStep acc delta).1.thinking = acc.thinking := by
  unfold contentStep
  by_cases hc : delta.contains "content" = true
  · by_cases hne : (delta.getVal "content").toStr = "" <;> simp [hc, hne]
  · simp [hc]

theorem contentStep_toolCalls (acc : StreamAcc) (delta : JObj) :
    (contentStep acc delta).1.toolCalls = acc.toolCalls := by
  unfold contentStep
  by_cases hc : delta.contains "content" = true
  · by_cases hne : (delta.getVal "content").toStr = "" <;> simp [hc, hne]
  · simp [hc]

theorem thinkingStep_content (acc : StreamAcc) (delta : JObj) :
    (thinkingStep acc delta).1.content = acc.content := by
  unfold thinkingStep
  by_cases hc : delta.contains "reasoning" = true ∨ delta.contains "thinking" = true
  · by_cases hne : ((delta.getVal (if delta.contains "reasoning" = true then "reasoning" else "thinking")).toStr) = "" <;>
      simp [hc, hne]
  · simp [hc]

theorem thinkingStep_toolCalls (acc : StreamAcc) (delta : JObj) :
    (thinkingStep acc delta).1.toolCalls = acc.toolCalls := by
  unfold thinkingStep
  by_cases hc : delta.contains "reasoning" = true ∨ delta.contains "thinking" = true
  · by_cases hne : ((delta.getVal (if delta.contains "reasoning" = true then "reasoning" else "thinking")).toStr) = "" <;>
      simp [hc, hne]
  · simp [hc]

theorem toolCallsStep_content (acc : StreamAcc) (delta : JObj) :
    (toolCallsStep acc delta).content = acc.content := by
  unfold toolCallsStep
  by_cases hc : delta.contains "tool_calls" = true <;> simp [hc]

theorem toolCallsStep_toolCalls (acc : StreamAcc) (delta : JObj) :
    (toolCallsStep acc delta).toolCalls
      = ((delta.getVal "tool_calls").toArray).foldl applyToolCallDelta acc.toolCalls := by
  unfold toolCallsStep
  by_cases hc : delta.contains "tool_calls" = true
  · simp [hc]
  · have h0 : delta.getVal "tool_calls" = .null :=
      JObj.getVal_eq_null_of_not_contains _ _ (by simpa using hc)
    simp [hc, h0, JValue.toArray]

theorem processStreamingChunk_slotArg (acc : StreamAcc) (chunk : JObj) (i : Nat)
    (h : chunk.contains "error" = false) :
    slotArgString (processStreamingChunk acc chunk).1.toolCalls i
      = slotArgString acc.toolCalls i ++ chunkArgFragments i chunk := by
  unfold processStreamingChunk chunkArgFragments
  simp only [h, Bool.false_eq_true, if_false]
  cases (chunk.getVal "choices").toArray with
  | nil => simp [String.append_empty]
  | cons choice rest =>
      simp only [toolCallsStep_toolCalls, thinkingStep_toolCalls, contentStep_toolCalls]
      exact slotArg_foldl _ _ i

theorem processStreamingChunk_content (acc : StreamAcc) (chunk : JObj)
    (h : chunk.contains "error" = false) :
    (processStreamingChunk acc chunk).1.content
      = acc.content ++ chunkContentFragment chunk := by
  unfold processStreamingChunk chunkContentFragment
  simp only [h, Bool.false_eq_true, if_false]
  cases (chunk.getVal "choices").toArray with
  | nil => simp [String.append_empty]
  | cons choice rest =>
      simp only [toolCallsStep_content, thinkingStep_content, contentStep_content]

/-! ### Whole-stream accumulator equations -/

theorem processChunks_slotArg (chunks : List JObj) (acc : StreamAcc) (i : Nat)
    (h : ∀ c ∈ chunks, c.contains "error" = false) :
    slotArgString (processChunks acc chunks).toolCalls i
      = slotArgString acc.toolCalls i ++ strConcat (chunks.map (chunkArgFragments i)) := by
  induction chunks generalizing acc with
  | nil => simp [processChunks, strConcat, String.append_empty]
  | cons c rest ih =>
      simp only [processChunks, List.foldl_cons, List.map_cons, strConcat]
      rw [show List.foldl (fun a c => (processStreamingChunk a c).1) (processStreamingChunk acc c).1 rest
            = processChunks (processStreamingChunk acc c).1 rest from rfl,
        ih _ (fun x hx => h x (List.mem_cons_of_mem _ hx)),
        processStreamingChunk_slotArg _ _ _ (h c (List.mem_cons_self _ _)),
        String.append_assoc]

theorem processChunks_content (chunks : List JObj) (acc : StreamAcc)
    (h : ∀ c ∈ chunks, c.contains "error" = false) :
    (processChunks acc chunks).content
      = acc.content ++ strConcat (chunks.map chunkContentFragment) := by
  induction chunks generalizing acc with
  | nil => simp [processChunks, strConcat, String.append_empty]
  | cons c rest ih =>
      simp only [processChunks, List.foldl_cons, List.map_cons, strConcat]
      rw [show List.foldl (fun a c => (processStreamingChunk a c).1) (processStreamingChunk acc c).1 rest
            = processChunks (processStreamingChunk acc c).1 rest from rfl,
        ih _ (fun x hx => h x (List.mem_cons_of_mem _ hx)),
        processStreamingChunk_content _ _ (h c (List.mem_cons_self _ _)),
        String.append_assoc]

/-! ## Pending tool calls (`AgentManager::handleToolCalls`) -/

/-- The `ToolCall` struct of `AgentManager.h`. -/
structure ToolCall where
  id : String
  name : String
  arguments : JObj

/-- One iteration of the loop in `AgentManager::handleToolCalls`: read the
slot's `id` and `function.name`, and parse the concatenated
`function.arguments` string as JSON (`QJsonDocument::fromJson(...).object()`,
with the text parser abstract). -/
def mkPendingToolCall (parse : String → JValue) (tc : JObj) : ToolCall :=
  { id := (tc.getVal "id").toStr
    name := ((tc.getVal "function").toObject.getVal "name").toStr
    arguments := (parse (((tc.getVal "function").toObject.getVal "arguments").toStr)).toObject }

/-- `AgentManager::handleToolCalls`' construction of `m_pendingToolCalls`. -/
def handleToolCallsPending (parse : String → JValue) (toolCalls : List JObj) : List ToolCall :=
  toolCalls.map (mkPendingToolCall parse)

theorem getD_map {α β : Type} (f : α → β) (l : List α) (i : Nat) (d : α) :
    (l.map f).getD i (f d) = f (l.getD i d) := by
  induction l generalizing i with
  | nil => rfl
  | cons a rest ih => cases i with
    | zero => rfl
    | succ n => simp only [List.map_cons, List.getD_cons_succ, ih n]

/-! ## Claim C1 -/

/-- Claim C1: for every streamed tool call slot `i`, after stream end the
arguments object passed to the tool handler (field `arguments` of the
`i`-th pending tool call built by `handleToolCalls`) equals the JSON parse
of the concatenation, in arrival order, of all `function.arguments` string
fragments delivered for index `i`, however the fragments were split across
SSE events.  The accumulation itself (`processChunks`) never invokes the
parser: `parse` is universally quantified and appears only in the
stream-end `handleToolCalls` step. -/
theorem agent_c1_streamed_tool_arguments (parse : String → JValue)
    (chunks : List JObj) (herr : ∀ c ∈ chunks, c.contains "error" = false)
    (i : Nat) (_hi : i < (processChunks initialAcc chunks).toolCalls.length) :
    ((handleToolCallsPending parse (processChunks initialAcc chunks).toolCalls).getD i
        (mkPendingToolCall parse emptyToolCall)).arguments
      = (parse (strConcat (chunks.map (chunkArgFragments i)))).toObject := by
  have h1 : slotArgString (processChunks initialAcc chunks).toolCalls i
      = strConcat (chunks.map (chunkArgFragments i)) := by
    have := processChunks_slotArg chunks initialAcc i herr
    rwa [show initialAcc.toolCalls = [] from rfl, slotArgString_nil,
      String.empty_append] at this
  rw [handleToolCallsPending, getD_map, ← h1]
  rfl

/-- The three-way split of the spec's fragmented-arguments scenario:
`function.arguments` for slot 0 arrives as three fragments across three
SSE events. -/
def c1Chunks : List JObj :=
  [ [("choices", .arr [.obj [("delta", .obj [("tool_calls", .arr [.obj
      [("index", .num 0), ("id", .str "call_1"),
       ("function", .obj [("name", .str "set_tempo"), ("arguments", .str "\x7b\"bp")])]])])]])]
  , [("choices", .arr [.obj [("delta", .obj [("tool_calls", .arr [.obj
      [("index", .num 0),
       ("function", .obj [("arguments", .str "m\":12")])]])])]])]
  , [("choices", .arr [.obj [("delta", .obj [("tool_calls", .arr [.obj
      [("index", .num 0),
       ("function", .obj [("arguments", .str "8\x7d")])]])])]])] ]

theorem agent_c1_streamed_tool_arguments_witness :
    (∀ c ∈ c1Chunks, c.contains "error" = false)
    ∧ 0 < (processChunks initialAcc c1Chunks).toolCalls.length
    ∧ strConcat (c1Chunks.map (chunkArgFragments 0)) = "\x7b\"bpm\":128\x7d"
    ∧ ((handleToolCallsPending JValue.str (processChunks initialAcc c1Chunks).toolCalls).getD 0
          (mkPendingToolCall JValue.str emptyToolCall)).arguments
        = (JValue.str (strConcat (c1Chunks.map (chunkArgFragments 0)))).toObject :=
  ⟨by decide, by decide, by decide,
   agent_c1_streamed_tool_arguments JValue.str c1Chunks (by decide) 0 (by decide)⟩

/-! ## Claim C8 -/

/-- Claim C8: for every sequence of streamed delta payloads in one
request, the final accumulated `content_text` equals the concatenation, in
arrival order, of all `content` string fragments carried in
`choices[0].delta`.  (Error payloads carry no delta and are excluded by
hypothesis.) -/
theorem agent_c8_content_concatenation (chunks : List JObj)
    (herr : ∀ c ∈ chunks, c.contains "error" = false) :
    (processChunks initialAcc chunks).content
      = strConcat (chunks.map chunkContentFragment) := by
  have := processChunks_content chunks initialAcc herr
  rwa [show initialAcc.content = "" from rfl, String.empty_append] at this

/-- The spec's no-tool-reply scenario: three content deltas. -/
def c8Chunks : List JObj :=
  [ [("choices", .arr [.obj [("delta", .obj [("content", .str "Hi")])]])]
  , [("choices", .arr [.obj [("delta", .obj [("content", .str " there")])]])]
  , [("choices", .arr [.obj [("delta", .obj [("content", .str "!")])]])] ]

theorem agent_c8_content_concatenation_witness :
    (∀ c ∈ c8Chunks, c.contains "error" = false)
    ∧ strConcat (c8Chunks.map chunkContentFragment) = "Hi there!"
    ∧ (processChunks initialAcc c8Chunks).content
        = strConcat (c8Chunks.map chunkContentFragment) :=
  ⟨by decide, by decide, agent_c8_content_concatenation c8Chunks (by decide)⟩

/-! ## Host model (the LMMS project state the tools read and mutate)

`Song`, `Track`, `MidiClip` and `Note` are host classes of LMMS, outside
the agent sources; only the fields the tools touch are modelled, following
the Host Adapter interface of the spec (tempo, track list with type and
mute/solo state, MIDI clips with tick positions, notes). -/

inductive TrackType where
  | instrument
  | pattern
  | sample
  | automation
  | other
deriving DecidableEq

/-- A note as constructed by `Note(TimePos(length), TimePos(position),
key, volume, panning)`; tick positions and lengths are integers. -/
structure NoteRec where
  length : Int
  position : Int
  key : Int
  volume : Int
  panning : Int
deriving DecidableEq

/-- Modelled from the spec: default panning is centered. -/
def DefaultPanning : Int := 0

structure MidiClip where
  startPosition : Int
  notes : List NoteRec
deriving DecidableEq

structure Track where
  name : String
  ttype : TrackType
  muted : Bool
  solo : Bool
  clips : List MidiClip
deriving DecidableEq

structure Song where
  tempo : Int
  tracks : List Track
  playing : Bool
deriving DecidableEq

/-- `Engine::getSong()`: `none` when no project is loaded. -/
def Engine := Option Song

/-! ## Tool registry (`AgentTools`) -/

/-- The `ToolResult` struct of `AgentTools.h`. -/
structure ToolResult where
  success : Bool
  result : String
  error : String
deriving DecidableEq

/-- What a handler invocation does: return a result, or raise an
exception carrying its `what()` message (every exception thrown in this
codebase derives from `std::exception`, matching the `catch` clause of
`executeTool`).  The `Engine` component carries the host state, including
mutations made before a throw. -/
inductive HandlerOutcome where
  | ret (r : ToolResult) (eng : Engine)
  | exn (msg : String) (eng : Engine)

/-- `AgentTools::ToolFunction`, with the host state threaded explicitly. -/
def ToolFunction := JObj → Engine → HandlerOutcome

/-- `m_toolFunctions`: the name-keyed handler catalog. -/
def Registry := List (String × ToolFunction)

/-- `m_toolFunctions.find(name)`. -/
def lookupTool : Registry → String → Option ToolFunction
  | [], _ => none
  | (n, f) :: rest, name => if n = name then some f else lookupTool rest name

/-- `AgentTools::executeTool`: unknown names yield
`Err("Unknown tool: <name>")`; a handler exception is caught and converted
to `Err("Tool execution error: <message>")`. -/
def executeTool (tools : Registry) (name : String) (args : JObj) (eng : Engine) :
    ToolResult × Engine :=
  match lookupTool tools name with
  | none => ({ success := false, result := "", error := "Unknown tool: " ++ name }, eng)
  | some f =>
    match f args eng with
    | .ret r e => (r, e)
    | .exn m e => ({ success := false, result := "", error := "Tool execution error: " ++ m }, e)

/-- The tool names registered by `AgentTools::initializeTools`, in
registration order. -/
def registeredToolNames : List String :=
  ["get_tempo", "set_tempo", "list_tracks", "add_instrument_track",
   "add_sample_track", "set_track_name", "set_track_muted", "list_samples",
   "get_sample_categories", "add_notes_to_track", "get_track_notes",
   "clear_track_notes", "get_project_info", "play_project", "stop_project"]

theorem lookupTool_eq_none_of_not_mem (tools : Registry) (name : String)
    (h : ¬name ∈ tools.map Prod.fst) : lookupTool tools name = none := by
  induction tools with
  | nil => rfl
  | cons p rest ih =>
      simp only [List.map_cons, List.mem_cons, not_or] at h
      simp only [lookupTool]
      rw [if_neg (fun he => h.1 (by simp [he])), ih h.2]

/-! ## `AgentTools::setTempo` -/

/-- `AgentTools::setTempo`.  The success payload is
`QJsonDocument(result).toJson(Compact)` of `\x7bsuccess, bpm, message\x7d`;
`QJsonObject` keeps its keys sorted, so the compact text lists
`bpm`, `message`, `success` in that order. -/
def setTempo (args : JObj) (eng : Engine) : ToolResult × Engine :=
  match eng with
  | none => ({ success := false, result := "", error := "No project loaded" }, none)
  | some song =>
    if ¬args.contains "bpm" = true then
      ({ success := false, result := "", error := "Missing required parameter: bpm" }, some song)
    else
      let bpm := (args.getVal "bpm").toInt
      if bpm < 10 ∨ bpm > 999 then
        ({ success := false, result := "",
           error := "BPM must be between 10 and 999, got " ++ toString bpm }, some song)
      else
        ({ success := true,
           result := "\x7b\"bpm\":" ++ toString bpm
             ++ ",\"message\":\"Tempo set to " ++ toString bpm ++ " BPM\",\"success\":true\x7d",
           error := "" }, some { song with tempo := bpm })

/-! ## Claim C5 -/

/-- Claim C5: with a project loaded and an integer `bpm` argument present,
`set_tempo` on any `bpm` outside `[10, 999]` returns `Err` with text
`BPM must be between 10 and 999, got <bpm>` and leaves the host state
(hence the tempo) unchanged; on any `bpm` inside the range it returns `Ok`
and sets the host tempo to `bpm`. -/
theorem agent_c5_set_tempo_range (args : JObj) (song : Song) (bpm : Int)
    (hc : args.contains "bpm" = true) (hv : args.getVal "bpm" = JValue.num bpm) :
    ((bpm < 10 ∨ bpm > 999) →
      setTempo args (some song)
        = ({ success := false, result := "",
             error := "BPM must be between 10 and 999, got " ++ toString bpm }, some song))
    ∧ (10 ≤ bpm → bpm ≤ 999 →
      (setTempo args (some song)).1.success = true
        ∧ (setTempo args (some song)).2 = some { song with tempo := bpm }) := by
  constructor
  · intro hout
    simp [setTempo, hc, hv, JValue.toInt, hout]
  · intro h10 h999
    have hin : ¬(bpm < 10 ∨ 999 < bpm) := by omega
    simp [setTempo, hc, hv, JValue.toInt, hin]

/-- The spec's out-of-range scenario (`bpm = 5000`) and the in-range
round-trip (`bpm = 128`) on a concrete project. -/
theorem agent_c5_set_tempo_range_witness :
    (setTempo [("bpm", .num 5000)] (some { tempo := 140, tracks := [], playing := false })
        = ({ success := false, result := "",
             error := "BPM must be between 10 and 999, got 5000" },
           some { tempo := 140, tracks := [], playing := false }))
    ∧ ((setTempo [("bpm", .num 128)] (some { tempo := 140, tracks := [], playing := false })).1.success = true
        ∧ (setTempo [("bpm", .num 128)] (some { tempo := 140, tracks := [], playing := false })).2
            = some { tempo := 128, tracks := [], playing := false }) :=
  ⟨by
      have h := (agent_c5_set_tempo_range [("bpm", .num 5000)]
        { tempo := 140, tracks := [], playing := false } 5000 (by decide) (by rfl)).1
        (by decide)
      rw [h]
      decide,
   (agent_c5_set_tempo_range [("bpm", .num 128)]
      { tempo := 140, tracks := [], playing := false } 128 (by decide) (by rfl)).2
      (by decide) (by decide)⟩

/-! ## Claim C6 -/

/-- Claim C6: `executeTool` returns `Err("Unknown tool: <name>")` for any
unregistered name (without touching host state), and converts a handler
exception into `Err("Tool execution error: <message>")` instead of
propagating it — `executeTool` is total, so the conversation loop never
observes a thrown handler failure. -/
theorem agent_c6_execute_tool_errors (tools : Registry) (name : String)
    (args : JObj) (eng : Engine) :
    (lookupTool tools name = none →
      executeTool tools name args eng
        = ({ success := false, result := "", error := "Unknown tool: " ++ name }, eng))
    ∧ (∀ f m eng', lookupTool tools name = some f → f args eng = .exn m eng' →
      executeTool tools name args eng
        = ({ success := false, result := "", error := "Tool execution error: " ++ m }, eng')) := by
  constructor
  · intro h
    simp [executeTool, h]
  · intro f m eng' hf hx
    simp [executeTool, hf, hx]

/-- A registry with one handler that throws: the unknown name and the
caught-exception conversion, at concrete inputs. -/
theorem agent_c6_execute_tool_errors_witness :
    (executeTool [("boom", fun _ e => .exn "kaboom" e)] "nope" [] none
        = ({ success := false, result := "", error := "Unknown tool: nope" }, none))
    ∧ (executeTool [("boom", fun _ e => .exn "kaboom" e)] "boom" [] none
        = ({ success := false, result := "", error := "Tool execution error: kaboom" }, none)) :=
  ⟨by
      have h := (agent_c6_execute_tool_errors
        [("boom", fun _ e => .exn "kaboom" e)] "nope" [] none).1 (by rfl)
      rw [h]
      rfl,
   by
      have h := (agent_c6_execute_tool_errors
        [("boom", fun _ e => .exn "kaboom" e)] "boom" [] none).2
        (fun _ e => .exn "kaboom" e) "kaboom" none (by rfl) (by rfl)
      rw [h]
      rfl⟩

/-! ## `AgentTools::addNotesToTrack` -/

/-- A track value for the (unreachable) out-of-range `getD` default. -/
def dummyTrack : Track :=
  { name := "", ttype := .other, muted := false, solo := false, clips := [] }

def dummyClip : MidiClip := { startPosition := 0, notes := [] }

/-- The clip lookup loop of `addNotesToTrack`: index of the first clip
whose `startPosition` equals the requested position. -/
def findClipIdxAt (clips : List MidiClip) (pos : Int) : Option Nat :=
  clips.findIdx? (fun c => c.startPosition == pos)

/-- Minimal JSON string escaping for the serialized payload (quote and
backslash; names with control characters are not modelled). -/
def jsonEscapeChar (c : Char) : String :=
  if c = '\\' then "\\\\" else if c = '"' then "\\\"" else String.singleton c

def jsonEscape (s : String) : String :=
  strConcat (s.data.map jsonEscapeChar)

/-- The per-note loop of `addNotesToTrack`: read `key`, `position`,
`length` and the defaulted `volume`; skip keys outside the MIDI range
0–127 (`continue`); append the rest to the clip via `addNote` and count
them.  `clip->addNote(note, false)` appends the note (host behaviour,
per the spec's `add_note`). -/
def addNotesLoop (clip : MidiClip) : List JValue → MidiClip × Nat
  | [] => (clip, 0)
  | nv :: rest =>
    let noteObj := nv.toObject
    let key := (noteObj.getVal "key").toInt
    let position := (noteObj.getVal "position").toInt
    let length := (noteObj.getVal "length").toInt
    let volume := if noteObj.contains "volume" = true then (noteObj.getVal "volume").toInt else 100
    if key < 0 ∨ key > 127 then
      addNotesLoop clip rest
    else
      let clip' := { clip with notes := clip.notes ++
        [{ length := length, position := position, key := key,
           volume := volume, panning := DefaultPanning }] }
      let res := addNotesLoop clip' rest
      (res.1, res.2 + 1)

/-- The success payload of `addNotesToTrack`
(`QJsonDocument::toJson(Compact)` with `QJsonObject`'s sorted keys:
`message`, `notes_added`, `success`, `track`). -/
def addNotesOkText (notesAdded : Nat) (trackName : String) : String :=
  "\x7b\"message\":\"Added " ++ toString notesAdded ++ " notes to track '"
    ++ jsonEscape trackName ++ "'\",\"notes_added\":" ++ toString notesAdded
    ++ ",\"success\":true,\"track\":\"" ++ jsonEscape trackName ++ "\"\x7d"

/-- `AgentTools::addNotesToTrack`.  The `dynamic_cast<InstrumentTrack*>`
succeeds precisely for tracks of instrument type, and
`InstrumentTrack::createClip` yields a fresh `MidiClip` at the requested
position (host behaviour, per the spec's `get_or_create_midi_clip`), so
the two cast-failure error paths of the source are unreachable here.
`clip->updateLength()` does not change the notes and is not modelled. -/
def addNotesToTrack (args : JObj) (eng : Engine) : ToolResult × Engine :=
  match eng with
  | none => ({ success := false, result := "", error := "No project loaded" }, none)
  | some song =>
    if ¬args.contains "track_index" = true ∨ ¬args.contains "notes" = true then
      ({ success := false, result := "",
         error := "Missing required parameters: track_index, notes" }, some song)
    else
      let trackIndex := (args.getVal "track_index").toInt
      let notesArray := (args.getVal "notes").toArray
      let clipPosition :=
        if args.contains "clip_position" = true then (args.getVal "clip_position").toInt else 0
      if trackIndex < 0 ∨ (song.tracks.length : Int) ≤ trackIndex then
        ({ success := false, result := "",
           error := "Invalid track index: " ++ toString trackIndex }, some song)
      else
        let ti := trackIndex.toNat
        let track := song.tracks.getD ti dummyTrack
        if ¬track.ttype = TrackType.instrument then
          ({ success := false, result := "", error := "Track is not an instrument track" },
            some song)
        else
          match findClipIdxAt track.clips clipPosition with
          | some ci =>
            let res := addNotesLoop (track.clips.getD ci dummyClip) notesArray
            ({ success := true, result := addNotesOkText res.2 track.name, error := "" },
              some { song with tracks :=
                song.tracks.set ti { track with clips := track.clips.set ci res.1 } })
          | none =>
            let res := addNotesLoop { startPosition := clipPosition, notes := [] } notesArray
            ({ success := true, result := addNotesOkText res.2 track.name, error := "" },
              some { song with tracks :=
                song.tracks.set ti { track with clips := track.clips ++ [res.1] } })

/-! ## Claim C10 -/

/-- The in-range-key test of the note loop, as a predicate on the raw
note value. -/
def noteKeyOk (nv : JValue) : Bool :=
  decide (0 ≤ (nv.toObject.getVal "key").toInt ∧ (nv.toObject.getVal "key").toInt ≤ 127)

/-- The note record the loop builds from a raw note value: `position`,
`length` and `volume` taken as-is (no range validation), `volume`
defaulting to 100 when absent. -/
def mkNoteRec (nv : JValue) : NoteRec :=
  { length := (nv.toObject.getVal "length").toInt
    position := (nv.toObject.getVal "position").toInt
    key := (nv.toObject.getVal "key").toInt
    volume := if nv.toObject.contains "volume" = true then (nv.toObject.getVal "volume").toInt else 100
    panning := DefaultPanning }

theorem addNotesLoop_spec (notes : List JValue) (clip : MidiClip) :
    addNotesLoop clip notes
      = ({ clip with notes := clip.notes ++ (notes.filter noteKeyOk).map mkNoteRec },
         notes.countP noteKeyOk) := by
  induction notes generalizing clip with
  | nil => simp [addNotesLoop]
  | cons nv rest ih =>
      by_cases hk : (nv.toObject.getVal "key").toInt < 0 ∨ (nv.toObject.getVal "key").toInt > 127
      · have hko : noteKeyOk nv = false := by
          simp only [noteKeyOk, decide_eq_false_iff_not]
          omega
        simp only [addNotesLoop, hk, if_true, ih, List.filter_cons, List.countP_cons, hko,
          Bool.false_eq_true, if_false, cond_false, Nat.add_zero]
      · have hko : noteKeyOk nv = true := by
          simp only [noteKeyOk, decide_eq_true_eq]
          omega
        simp only [addNotesLoop, hk, if_false, ih, List.filter_cons, List.countP_cons, hko,
          if_true, cond_true, List.map_cons, List.append_assoc, List.singleton_append,
          mkNoteRec]

/-- Claim C10: with a project loaded, the required arguments present and a
valid instrument-track index, `add_notes_to_track` returns `Ok` whose
`notes_added` equals the number of notes with MIDI key in `[0, 127]`;
out-of-range keys are silently skipped, and `position`, `length` and
`volume` are not range-validated (`volume` defaults to 100 when absent),
as the loop equation in the second conjunct shows. -/
theorem agent_c10_add_notes (args : JObj) (song : Song) (ti : Nat)
    (hc1 : args.contains "track_index" = true) (hc2 : args.contains "notes" = true)
    (hv : args.getVal "track_index" = JValue.num (ti : Int))
    (hlt : ti < song.tracks.length)
    (hinst : (song.tracks.getD ti dummyTrack).ttype = TrackType.instrument) :
    (addNotesToTrack args (some song)).1
      = { success := true,
          result := addNotesOkText (((args.getVal "notes").toArray).countP noteKeyOk)
            (song.tracks.getD ti dummyTrack).name,
          error := "" }
    ∧ ∀ (clip : MidiClip) (notes : List JValue),
        addNotesLoop clip notes
          = ({ clip with notes := clip.notes ++ (notes.filter noteKeyOk).map mkNoteRec },
             notes.countP noteKeyOk) := by
  refine ⟨?_, fun clip notes => addNotesLoop_spec notes clip⟩
  have hneg : ¬((ti : Int) < 0 ∨ (song.tracks.length : Int) ≤ (ti : Int)) := by
    omega
  have htn : ((ti : Int)).toNat = ti := Int.toNat_natCast ti
  simp only [addNotesToTrack]
  rw [if_neg (show ¬(¬args.contains "track_index" = true ∨ ¬args.contains "notes" = true) from by
    simp [hc1, hc2])]
  rw [hv]
  simp only [JValue.toInt_num]
  rw [if_neg hneg]
  rw [htn]
  rw [if_neg (show ¬¬(song.tracks.getD ti dummyTrack).ttype = TrackType.instrument from by
    simp only [not_not]
    exact hinst)]
  cases hfind : findClipIdxAt (song.tracks.getD ti dummyTrack).clips
      (if args.contains "clip_position" = true then (args.getVal "clip_position").toInt else 0) with
  | none => simp [addNotesLoop_spec]
  | some ci => simp [addNotesLoop_spec]

/-- Adding three notes (one valid key, one above 127, one negative) plus
an out-of-range volume and position to a one-track project. -/
def c10Args : JObj :=
  [("track_index", .num 0),
   ("notes", .arr
     [.obj [("key", .num 60), ("position", .num 0), ("length", .num 48)],
      .obj [("key", .num 200), ("position", .num 48), ("length", .num 48)],
      .obj [("key", .num (-1)), ("position", .num 96), ("length", .num 48)],
      .obj [("key", .num 127), ("position", .num (-7)), ("length", .num 100000),
            ("volume", .num 9999)]])]

def c10Song : Song :=
  { tempo := 140,
    tracks := [{ name := "Lead", ttype := .instrument, muted := false, solo := false,
                 clips := [] }],
    playing := false }

theorem agent_c10_add_notes_witness :
    (addNotesToTrack c10Args (some c10Song)).1
      = { success := true, result := addNotesOkText 2 "Lead", error := "" }
    ∧ ((c10Args.getVal "notes").toArray).countP noteKeyOk = 2 :=
  ⟨by
      have h := (agent_c10_add_notes c10Args c10Song 0 (by decide) (by decide) (by rfl)
        (by decide) (by rfl)).1
      rw [h]
      decide,
   by decide⟩

/-! ## Conversation manager (`AgentManager`) -/

/-- The `ChatMessage` struct of `AgentManager.h`. -/
structure ChatMessage where
  role : String
  content : String
  toolCallId : String
  name : String
  toolCalls : List JObj

/-- The manager's member state (`AgentManager.h`): configuration,
conversation state, pending tool calls and the streaming state.
`currentReply` models `m_currentReply != nullptr`. -/
structure ManagerState where
  apiKey : String
  model : String
  conversationHistory : List ChatMessage
  isProcessing : Bool
  pendingToolCalls : List ToolCall
  currentToolCallIndex : Nat
  currentReply : Bool
  streamBuffer : String
  acc : StreamAcc
  isStreaming : Bool

/-- `AgentManager::isConfigured`: the API key is non-empty. -/
def isConfigured (st : ManagerState) : Bool := !(st.apiKey == "")

/-- `AgentManager::sendApiRequest`: reset the streaming accumulators,
mark the stream open and emit `streamingStarted` (the HTTP POST itself is
outside the model). -/
def sendApiRequest (st : ManagerState) : ManagerState × List AgentEvent :=
  ({ st with streamBuffer := "", acc := initialAcc, isStreaming := true, currentReply := true },
   [.streamingStarted])

/-- `AgentManager::sendMessage`. -/
def sendMessage (st : ManagerState) (userMessage : String) : ManagerState × List AgentEvent :=
  if !isConfigured st then
    (st, [.errorOccurred "api key not set up... please set your openrouter api key."])
  else if st.isProcessing then
    (st, [.errorOccurred "already processing a request... please wait."])
  else
    let userMsg : ChatMessage :=
      { role := "user", content := userMessage, toolCallId := "", name := "", toolCalls := [] }
    let st1 := { st with conversationHistory := st.conversationHistory ++ [userMsg] }
    let st2 := { st1 with isProcessing := true }
    let s3 := sendApiRequest st2
    (s3.1, .processingStarted :: s3.2)

/-- `AgentManager::cancelCurrentRequest`: abort and release the inflight
reply, clear the streaming flag and all accumulators, and emit
`processingFinished` when a request was being processed. -/
def cancelCurrentRequest (st : ManagerState) : ManagerState × List AgentEvent :=
  let st1 := if st.currentReply then { st with currentReply := false } else st
  let st2 := { st1 with isStreaming := false, streamBuffer := "", acc := initialAcc }
  if st2.isProcessing then ({ st2 with isProcessing := false }, [.processingFinished])
  else (st2, [])

/-- The `tool`-role message appended by `executeToolCall`:
`content = result.ok_text or result.err_text`. -/
def toolMsgFor (c : ToolCall) (r : ToolResult) : ChatMessage :=
  { role := "tool", content := if r.success then r.result else r.error,
    toolCallId := c.id, name := c.name, toolCalls := [] }

/-- `AgentManager::executeToolCall`'s chain over the remaining pending
calls: execute each call, append its `tool` message to the history, and
emit the started/completed event pair. -/
def execPending (tools : Registry) : List ToolCall → List ChatMessage → Engine →
    List ChatMessage × Engine × List AgentEvent
  | [], hist, eng => (hist, eng, [])
  | c :: cs, hist, eng =>
    let re := executeTool tools c.name c.arguments eng
    let next := execPending tools cs (hist ++ [toolMsgFor c re.1]) re.2
    (next.1, next.2.1,
      .toolCallStarted c.name c.arguments
        :: .toolCallCompleted c.name (if re.1.success then re.1.result else re.1.error)
        :: next.2.2)

/-- The tool messages produced by executing `calls` in order starting
from host state `eng`: the claim-side description of `execPending`'s
appends. -/
def toolResultsMsgs (tools : Registry) : Engine → List ToolCall → List ChatMessage
  | _, [] => []
  | eng, c :: cs =>
    let re := executeTool tools c.name c.arguments eng
    toolMsgFor c re.1 :: toolResultsMsgs tools re.2 cs

theorem execPending_hist (tools : Registry) (calls : List ToolCall)
    (hist : List ChatMessage) (eng : Engine) :
    (execPending tools calls hist eng).1 = hist ++ toolResultsMsgs tools eng calls := by
  induction calls generalizing hist eng with
  | nil => simp [execPending, toolResultsMsgs]
  | cons c cs ih =>
      simp only [execPending, toolResultsMsgs, ih, List.append_assoc, List.singleton_append]

/-- One record dispatched by `onStreamingReadyRead`: a parsed payload
object, or the `[DONE]` sentinel, which emits `streamingFinished`
(payloads that do not parse as JSON objects are skipped before this
point). -/
inductive StreamItem where
  | chunk (c : JObj)
  | done

/-- `onStreamingReadyRead` over one round's records, at record
granularity. -/
def processItems (acc : StreamAcc) : List StreamItem → StreamAcc × List AgentEvent
  | [] => (acc, [])
  | .done :: rest =>
    let next := processItems acc rest
    (next.1, .streamingFinished :: next.2)
  | .chunk c :: rest =>
    let s := processStreamingChunk acc c
    let next := processItems s.1 rest
    (next.1, s.2 ++ next.2)

/-- The network activity of one request round: the stream records
delivered, and the transport error reported at finish, if any. -/
structure RoundInput where
  items : List StreamItem
  netError : Option String

/-- One turn's cascade after `sendMessage`: for each round, consume the
streamed records (`onStreamingReadyRead`) and run the stream-end decision
of `onStreamingFinished`: transport error → finalize with the error;
tool calls accumulated → append the assistant message carrying them,
execute the pending calls (`handleToolCalls`/`executeToolCall`),
re-request (`sendApiRequest`) and continue with the next round; content
only → append the assistant message, finalize and report the response;
empty → finalize silently. -/
def runTurn (tools : Registry) (parse : String → JValue) :
    List RoundInput → ManagerState → Engine → ManagerState × Engine × List AgentEvent
  | [], st, eng => (st, eng, [])
  | r :: rest, st, eng =>
    let s0 := processItems st.acc r.items
    let st0 := { st with acc := s0.1 }
    match r.netError with
    | some e =>
      ({ st0 with isProcessing := false, isStreaming := false, currentReply := false },
        eng, s0.2 ++ [.processingFinished, .errorOccurred ("Network error: " ++ e)])
    | none =>
      let st1 := { st0 with currentReply := false, isStreaming := false }
      if ¬st1.acc.toolCalls.isEmpty then
        let assistantMsg : ChatMessage :=
          { role := "assistant", content := st1.acc.content, toolCallId := "", name := ""
            toolCalls := st1.acc.toolCalls }
        let st2 := { st1 with conversationHistory := st1.conversationHistory ++ [assistantMsg] }
        let pending := handleToolCallsPending parse st2.acc.toolCalls
        let st3 := { st2 with pendingToolCalls := pending, currentToolCallIndex := 0 }
        match pending with
        | [] => (st3, eng, s0.2)
        | _ :: _ =>
          let ex := execPending tools pending st3.conversationHistory eng
          let st4 := { st3 with
            conversationHistory := ex.1
            pendingToolCalls := []
            currentToolCallIndex := 0 }
          let s5 := sendApiRequest st4
          let next := runTurn tools parse rest s5.1 ex.2.1
          (next.1, next.2.1, s0.2 ++ ex.2.2 ++ s5.2 ++ next.2.2)
      else if ¬st1.acc.content = "" then
        let respMsg : ChatMessage :=
          { role := "assistant", content := st1.acc.content, toolCallId := "", name := ""
            toolCalls := [] }
        let st2 := { st1 with conversationHistory := st1.conversationHistory ++ [respMsg] }
        ({ st2 with isProcessing := false }, eng,
          s0.2 ++ [.processingFinished, .responseReceived st1.acc.content])
      else
        ({ st1 with isProcessing := false }, eng, s0.2 ++ [.processingFinished])

/-- A full turn: `sendMessage`, then the delivered rounds when the send
actually opened a request. -/
def runConversationTurn (tools : Registry) (parse : String → JValue)
    (st : ManagerState) (eng : Engine) (userMessage : String) (rounds : List RoundInput) :
    ManagerState × Engine × List AgentEvent :=
  let s1 := sendMessage st userMessage
  if isConfigured st = true ∧ st.isProcessing = false then
    let next := runTurn tools parse rounds s1.1 eng
    (next.1, next.2.1, s1.2 ++ next.2.2)
  else (s1.1, eng, s1.2)

/-! ## Claim C7 -/

/-- Claim C7: `sendMessage` with no API key emits the configuration error
and returns with the state (hence the transcript) unchanged and no request
opened; while already processing it emits the busy error and returns with
the state unchanged; otherwise it appends exactly one user message, sets
`is_processing`, emits `processing_started` and opens a streaming request
(`currentReply` set, `streamingStarted` emitted). -/
theorem agent_c7_send_message (st : ManagerState) (u : String) :
    (isConfigured st = false →
      sendMessage st u
        = (st, [.errorOccurred "api key not set up... please set your openrouter api key."]))
    ∧ (isConfigured st = true → st.isProcessing = true →
      sendMessage st u
        = (st, [.errorOccurred "already processing a request... please wait."]))
    ∧ (isConfigured st = true → st.isProcessing = false →
      (sendMessage st u).1.conversationHistory
          = st.conversationHistory
            ++ [{ role := "user", content := u, toolCallId := "", name := "", toolCalls := [] }]
        ∧ (sendMessage st u).1.isProcessing = true
        ∧ (sendMessage st u).1.currentReply = true
        ∧ (sendMessage st u).2 = [.processingStarted, .streamingStarted]) := by
  refine ⟨?_, ?_, ?_⟩
  · intro h
    simp [sendMessage, h]
  · intro h hp
    simp [sendMessage, h, hp]
  · intro h hp
    simp [sendMessage, sendApiRequest, h, hp]

/-- A fresh configured manager state. -/
def idleState : ManagerState :=
  { apiKey := "k", model := "anthropic/claude-4-5-sonnet", conversationHistory := [],
    isProcessing := false, pendingToolCalls := [], currentToolCallIndex := 0,
    currentReply := false, streamBuffer := "", acc := initialAcc, isStreaming := false }

theorem agent_c7_send_message_witness :
    (sendMessage { idleState with apiKey := "" } "hello"
        = ({ idleState with apiKey := "" },
           [.errorOccurred "api key not set up... please set your openrouter api key."]))
    ∧ (sendMessage { idleState with isProcessing := true } "hello"
        = ({ idleState with isProcessing := true },
           [.errorOccurred "already processing a request... please wait."]))
    ∧ ((sendMessage idleState "hello").1.conversationHistory
          = [{ role := "user", content := "hello", toolCallId := "", name := "", toolCalls := [] }]
        ∧ (sendMessage idleState "hello").1.isProcessing = true
        ∧ (sendMessage idleState "hello").2 = [.processingStarted, .streamingStarted]) :=
  ⟨(agent_c7_send_message { idleState with apiKey := "" } "hello").1 (by decide),
   (agent_c7_send_message { idleState with isProcessing := true } "hello").2.1 (by decide) (by decide),
   by
    have h := (agent_c7_send_message idleState "hello").2.2 (by decide) (by decide)
    exact ⟨h.1, h.2.1, h.2.2.2⟩⟩

/-! ## Claim C3 -/

/-- The claim's `cancel()` behaviour fails on the code: a state with a
non-empty `pending_tool_calls` keeps it across `cancelCurrentRequest`
(the source clears the stream buffer and the accumulators but never
touches `m_pendingToolCalls`; only `clearHistory` does). -/
theorem agent_c3_cancel_counterexample :
    ((cancelCurrentRequest
        { idleState with
          isProcessing := true
          currentReply := true
          pendingToolCalls := [{ id := "id1", name := "set_tempo", arguments := [] }] }).1.pendingToolCalls
      = [{ id := "id1", name := "set_tempo", arguments := [] }])
    ∧ ¬([{ id := "id1", name := "set_tempo", arguments := ([] : JObj) }] : List ToolCall) = [] := by
  constructor
  · rfl
  · intro h
    cases h

/-- Claim C3 as amended: for every manager state, `cancel()` aborts the
current stream (releases the reply handle, clears the streaming flag),
clears all accumulators (raw buffer, content, thinking, tool-call slots),
transitions to not-processing and emits `processing_finished` exactly when
it was processing (so calling it when idle is safe and silent) — but it
leaves `pending_tool_calls` unchanged; only `clear_history` clears them. -/
theorem agent_c3_cancel_amended (st : ManagerState) :
    (cancelCurrentRequest st).1.currentReply = false
    ∧ (cancelCurrentRequest st).1.isStreaming = false
    ∧ (cancelCurrentRequest st).1.streamBuffer = ""
    ∧ (cancelCurrentRequest st).1.acc = initialAcc
    ∧ (cancelCurrentRequest st).1.isProcessing = false
    ∧ (cancelCurrentRequest st).1.pendingToolCalls = st.pendingToolCalls
    ∧ (cancelCurrentRequest st).1.conversationHistory = st.conversationHistory
    ∧ (cancelCurrentRequest st).2
        = (if st.isProcessing then [.processingFinished] else []) := by
  unfold cancelCurrentRequest
  by_cases hr : st.currentReply = true <;> by_cases hp : st.isProcessing = true <;>
    simp [hr, hp]

/-! ## Claim C2 -/

/-- Discriminator for `responseReceived` events. -/
def isResponseReceivedEv : AgentEvent → Bool
  | .responseReceived _ => true
  | _ => false

theorem noRR_contentStep (acc : StreamAcc) (delta : JObj) :
    ∀ e ∈ (contentStep acc delta).2, isResponseReceivedEv e = false := by
  unfold contentStep
  by_cases hc : delta.contains "content" = true
  · by_cases hne : (delta.getVal "content").toStr = "" <;>
      simp [hc, hne, isResponseReceivedEv]
  · simp [hc]

theorem noRR_thinkingStep (acc : StreamAcc) (delta : JObj) :
    ∀ e ∈ (thinkingStep acc delta).2, isResponseReceivedEv e = false := by
  unfold thinkingStep
  by_cases hc : delta.contains "reasoning" = true ∨ delta.contains "thinking" = true
  · by_cases hne : ((delta.getVal (if delta.contains "reasoning" = true then "reasoning" else "thinking")).toStr) = "" <;>
      simp [hc, hne, isResponseReceivedEv]
  · simp [hc]

theorem noRR_processStreamingChunk (acc : StreamAcc) (chunk : JObj) :
    ∀ e ∈ (processStreamingChunk acc chunk).2, isResponseReceivedEv e = false := by
  unfold processStreamingChunk
  by_cases he : chunk.contains "error" = true
  · simp [he, isResponseReceivedEv]
  · simp only [he, Bool.false_eq_true, if_false]
    cases (chunk.getVal "choices").toArray with
    | nil => simp
    | cons choice rest =>
        intro e hmem
        simp only [List.mem_append] at hmem
        rcases hmem with h | h
        · exact noRR_contentStep _ _ e h
        · exact noRR_thinkingStep _ _ e h

theorem noRR_processItems (acc : StreamAcc) (items : List StreamItem) :
    ∀ e ∈ (processItems acc items).2, isResponseReceivedEv e = false := by
  induction items generalizing acc with
  | nil => simp [processItems]
  | cons it rest ih =>
      cases it with
      | done =>
          intro e he
          simp only [processItems, List.mem_cons] at he
          rcases he with h | h
          · subst h; rfl
          · exact ih _ e h
      | chunk c =>
          intro e he
          simp only [processItems, List.mem_append] at he
          rcases he with h | h
          · exact noRR_processStreamingChunk _ _ e h
          · exact ih _ e h

theorem noRR_execPending (tools : Registry) (calls : List ToolCall)
    (hist : List ChatMessage) (eng : Engine) :
    ∀ e ∈ (execPending tools calls hist eng).2.2, isResponseReceivedEv e = false := by
  induction calls generalizing hist eng with
  | nil => simp [execPending]
  | cons c cs ih =>
      intro e he
      simp only [execPending, List.mem_cons] at he
      rcases he with h | h | h
      · subst h; rfl
      · subst h; rfl
      · exact ih _ _ e h

/-- Appending an event prefix free of `responseReceived` preserves the
"`responseReceived` only at the very end, right after
`processingFinished`" trace shape. -/
theorem trace_tail_compose (pre tl : List AgentEvent)
    (hpre : ∀ e ∈ pre, isResponseReceivedEv e = false)
    (htl : (∀ e ∈ tl, isResponseReceivedEv e = false)
      ∨ ∃ p c, tl = p ++ [.processingFinished, .responseReceived c]
          ∧ ∀ e ∈ p, isResponseReceivedEv e = false) :
    (∀ e ∈ pre ++ tl, isResponseReceivedEv e = false)
    ∨ ∃ p c, pre ++ tl = p ++ [.processingFinished, .responseReceived c]
        ∧ ∀ e ∈ p, isResponseReceivedEv e = false := by
  rcases htl with hL | ⟨p, c, heq, hfree⟩
  · left
    intro e he
    rcases List.mem_append.1 he with h | h
    · exact hpre e h
    · exact hL e h
  · right
    refine ⟨pre ++ p, c, by rw [heq, List.append_assoc], ?_⟩
    intro e he
    rcases List.mem_append.1 he with h | h
    · exact hpre e h
    · exact hfree e h

/-- In every trace `runTurn` emits, a `responseReceived` event can only
be the final event, immediately preceded by `processingFinished`. -/
theorem runTurn_trace (tools : Registry) (parse : String → JValue) :
    ∀ (rounds : List RoundInput) (st : ManagerState) (eng : Engine),
      (∀ e ∈ (runTurn tools parse rounds st eng).2.2, isResponseReceivedEv e = false)
      ∨ ∃ p c, (runTurn tools parse rounds st eng).2.2
            = p ++ [.processingFinished, .responseReceived c]
          ∧ ∀ e ∈ p, isResponseReceivedEv e = false := by
  intro rounds
  induction rounds with
  | nil =>
      intro st eng
      left
      intro e he
      simp [runTurn] at he
  | cons r rest ih =>
      intro st eng
      cases hne : r.netError with
      | some err =>
          left
          intro e he
          simp only [runTurn, hne] at he
          rcases List.mem_append.1 he with h | h
          · exact noRR_processItems _ _ e h
          · simp only [List.mem_cons, List.not_mem_nil, or_false] at h
            rcases h with h | h <;> (subst h; rfl)
      | none =>
          by_cases hemp : (processItems st.acc r.items).1.toolCalls.isEmpty = true
          · by_cases hcont : (processItems st.acc r.items).1.content = ""
            · left
              intro e he
              simp only [runTurn, hne, hemp, hcont, not_true, if_false,
                Bool.not_eq_true, not_false_iff, if_true] at he
              rcases List.mem_append.1 he with h | h
              · exact noRR_processItems _ _ e h
              · simp only [List.mem_cons, List.not_mem_nil, or_false] at h
                subst h; rfl
            · right
              refine ⟨(processItems st.acc r.items).2,
                (processItems st.acc r.items).1.content, ?_, noRR_processItems _ _⟩
              simp [runTurn, hne, hemp, hcont]
          · cases hp : handleToolCallsPending parse (processItems st.acc r.items).1.toolCalls with
            | nil =>
                left
                intro e he
                simp only [runTurn, hne, hemp, hp, not_false_iff, if_true] at he
                exact noRR_processItems _ _ e he
            | cons p0 ps =>
                have hred : (runTurn tools parse (r :: rest) st eng).2.2
                    = ((processItems st.acc r.items).2
                        ++ ((execPending tools (p0 :: ps)
                              (st.conversationHistory
                                ++ [{ role := "assistant",
                                      content := (processItems st.acc r.items).1.content,
                                      toolCallId := "", name := "",
                                      toolCalls := (processItems st.acc r.items).1.toolCalls }])
                              eng).2.2
                          ++ ([AgentEvent.streamingStarted]
                            ++ (runTurn tools parse rest
                                (sendApiRequest
                                  { st with
                                    acc := (processItems st.acc r.items).1
                                    currentReply := false
                                    isStreaming := false
                                    conversationHistory :=
                                      (execPending tools (p0 :: ps)
                                        (st.conversationHistory
                                          ++ [{ role := "assistant",
                                                content := (processItems st.acc r.items).1.content,
                                                toolCallId := "", name := "",
                                                toolCalls := (processItems st.acc r.items).1.toolCalls }])
                                        eng).1
                                    pendingToolCalls := []
                                    currentToolCallIndex := 0 }).1
                                (execPending tools (p0 :: ps)
                                  (st.conversationHistory
                                    ++ [{ role := "assistant",
                                          content := (processItems st.acc r.items).1.content,
                                          toolCallId := "", name := "",
                                          toolCalls := (processItems st.acc r.items).1.toolCalls }])
                                  eng).2.1).2.2))) := by
                  simp [runTurn, hne, hemp, hp, sendApiRequest]
                rw [hred]
                refine trace_tail_compose _ _ (noRR_processItems _ _) ?_
                refine trace_tail_compose _ _ (noRR_execPending _ _ _ _) ?_
                refine trace_tail_compose _ _ ?_ (ih _ _)
                intro e he
                simp only [List.mem_cons, List.not_mem_nil, or_false] at he
                subst he; rfl

/-- Discriminator for `processingFinished` events. -/
def isProcessingFinishedEv : AgentEvent → Bool
  | .processingFinished => true
  | _ => false

/-- An empty registry and a trivial parser for the concrete no-tool runs. -/
def c2Tools : Registry := []

def c2Parse : String → JValue := fun _ => .null

/-- One round streaming a single content delta and the `[DONE]`
sentinel, finishing without a transport error. -/
def c2Round : RoundInput :=
  { items := [.chunk [("choices", .arr [.obj [("delta", .obj [("content", .str "Hi")])]])], .done],
    netError := none }

/-- Claim C2's order fails on the code at the end of a content turn: on a
concrete turn ending with the non-empty content response "Hi", the trace
is `processing_started, stream_started, content_delta, stream_finished,
processing_finished, response_received` — so `response_received` is NOT
emitted before `processing_finished`
(`onStreamingFinished` emits them in the opposite order). -/
theorem agent_c2_event_order_counterexample :
    ((runConversationTurn c2Tools c2Parse idleState none "hello" [c2Round]).2.2
      = [.processingStarted, .streamingStarted, .streamingChunkReceived "Hi",
         .streamingFinished, .processingFinished, .responseReceived "Hi"])
    ∧ ¬((runConversationTurn c2Tools c2Parse idleState none "hello" [c2Round]).2.2.findIdx
          isResponseReceivedEv
        < (runConversationTurn c2Tools c2Parse idleState none "hello" [c2Round]).2.2.findIdx
          isProcessingFinishedEv) := by
  have h : (runConversationTurn c2Tools c2Parse idleState none "hello" [c2Round]).2.2
      = [.processingStarted, .streamingStarted, .streamingChunkReceived "Hi",
         .streamingFinished, .processingFinished, .responseReceived "Hi"] := by rfl
  refine ⟨h, ?_⟩
  rw [h]
  decide

/-- Claim C2 as amended: a turn's trace starts with `processing_started`
then `stream_started`, and whenever `response_received` is emitted it is
the last event of the turn, immediately preceded by `processing_finished`
(the code emits `processing_finished` first, then `response_received`);
the events in between are the delta/tool/stream-round events. -/
theorem agent_c2_event_order_amended (tools : Registry) (parse : String → JValue)
    (st : ManagerState) (eng : Engine) (u : String) (rounds : List RoundInput)
    (hcfg : isConfigured st = true) (hproc : st.isProcessing = false) :
    ∃ rest, (runConversationTurn tools parse st eng u rounds).2.2
        = .processingStarted :: .streamingStarted :: rest
      ∧ ((∀ e ∈ rest, isResponseReceivedEv e = false)
        ∨ ∃ p c, rest = p ++ [.processingFinished, .responseReceived c]
            ∧ ∀ e ∈ p, isResponseReceivedEv e = false) := by
  refine ⟨(runTurn tools parse rounds (sendMessage st u).1 eng).2.2, ?_,
    runTurn_trace tools parse rounds _ _⟩
  simp [runConversationTurn, hcfg, hproc, sendMessage, sendApiRequest]

theorem agent_c2_event_order_amended_witness :
    ∃ rest, (runConversationTurn c2Tools c2Parse idleState none "hi" [c2Round]).2.2
        = .processingStarted :: .streamingStarted :: rest
      ∧ ((∀ e ∈ rest, isResponseReceivedEv e = false)
        ∨ ∃ p c, rest = p ++ [.processingFinished, .responseReceived c]
            ∧ ∀ e ∈ p, isResponseReceivedEv e = false) :=
  agent_c2_event_order_amended c2Tools c2Parse idleState none "hi" [c2Round]
    (by decide) (by decide)

/-! ## Claim C4 -/

/-- The list does not begin with a `tool`-role message. -/
def headNotTool : List ChatMessage → Prop
  | [] => True
  | m :: _ => ¬m.role = "tool"

/-- The transcript invariant of claim C4: every assistant message
carrying tool calls is immediately followed by exactly the tool messages
produced by executing those calls (as parsed by `handleToolCalls`) in
order from some host state — one `tool` message per call, in the same
order, with `tool_call_id` the call's id, `name` the call's name and
`content` the call's ok/err result text — and the message right after
them, if any, is not `tool`-roled (so there are exactly `k` of them). -/
def TranscriptInv (tools : Registry) (parse : String → JValue) : List ChatMessage → Prop
  | [] => True
  | m :: rest =>
      (m.role = "assistant" → ¬m.toolCalls = [] →
        ∃ eng rest2,
          rest = toolResultsMsgs tools eng (handleToolCallsPending parse m.toolCalls) ++ rest2
            ∧ headNotTool rest2)
      ∧ TranscriptInv tools parse rest

theorem headNotTool_append (a b : List ChatMessage)
    (ha : headNotTool a) (hb : headNotTool b) : headNotTool (a ++ b) := by
  cases a with
  | nil => simpa using hb
  | cons m r => exact ha

theorem TranscriptInv_append (tools : Registry) (parse : String → JValue)
    (h b : List ChatMessage) (hh : TranscriptInv tools parse h)
    (hbInv : TranscriptInv tools parse b) (hbHead : headNotTool b) :
    TranscriptInv tools parse (h ++ b) := by
  induction h with
  | nil => simpa using hbInv
  | cons m hrest ih =>
      simp only [TranscriptInv] at hh
      obtain ⟨hprop, hrest'⟩ := hh
      refine ⟨?_, ih hrest'⟩
      intro hrole htc
      obtain ⟨eng, rest2, heq, hnt⟩ := hprop hrole htc
      exact ⟨eng, rest2 ++ b, by rw [heq]; simp,
        headNotTool_append _ _ hnt hbHead⟩

theorem TranscriptInv_toolResultsMsgs (tools : Registry) (parse : String → JValue)
    (tools' : Registry) (eng : Engine) (calls : List ToolCall) :
    TranscriptInv tools parse (toolResultsMsgs tools' eng calls) := by
  induction calls generalizing eng with
  | nil => simp [toolResultsMsgs, TranscriptInv]
  | cons c cs ih =>
      refine ⟨?_, ih _⟩
      intro hrole
      simp [toolMsgFor] at hrole

/-- The round cascade preserves the transcript invariant. -/
theorem runTurn_inv (tools : Registry) (parse : String → JValue) :
    ∀ (rounds : List RoundInput) (st : ManagerState) (eng : Engine),
      TranscriptInv tools parse st.conversationHistory →
      TranscriptInv tools parse (runTurn tools parse rounds st eng).1.conversationHistory := by
  intro rounds
  induction rounds with
  | nil => intro st eng h; simpa [runTurn] using h
  | cons r rest ih =>
      intro st eng h
      cases hne : r.netError with
      | some err => simpa [runTurn, hne] using h
      | none =>
          by_cases hemp : (processItems st.acc r.items).1.toolCalls.isEmpty = true
          · by_cases hcont : (processItems st.acc r.items).1.content = ""
            · simpa [runTurn, hne, hemp, hcont] using h
            · have hblock : TranscriptInv tools parse (st.conversationHistory ++
                  [{ role := "assistant", content := (processItems st.acc r.items).1.content,
                     toolCallId := "", name := "", toolCalls := [] }]) := by
                refine TranscriptInv_append tools parse _ _ h ⟨?_, trivial⟩ (by simp [headNotTool])
                intro _ htc
                exact absurd rfl htc
              simpa [runTurn, hne, hemp, hcont] using hblock
          · cases hp : handleToolCallsPending parse (processItems st.acc r.items).1.toolCalls with
            | nil =>
                exfalso
                have hlen := congrArg List.length hp
                simp only [handleToolCallsPending, List.length_map, List.length_nil] at hlen
                rw [List.length_eq_zero] at hlen
                simp [hlen] at hemp
            | cons p0 ps =>
                have hred : (runTurn tools parse (r :: rest) st eng).1
                    = (runTurn tools parse rest
                        (sendApiRequest
                          { st with
                            acc := (processItems st.acc r.items).1
                            currentReply := false
                            isStreaming := false
                            conversationHistory :=
                              (execPending tools (p0 :: ps)
                                (st.conversationHistory
                                  ++ [{ role := "assistant",
                                        content := (processItems st.acc r.items).1.content,
                                        toolCallId := "", name := "",
                                        toolCalls := (processItems st.acc r.items).1.toolCalls }])
                                eng).1
                            pendingToolCalls := []
                            currentToolCallIndex := 0 }).1
                        (execPending tools (p0 :: ps)
                          (st.conversationHistory
                            ++ [{ role := "assistant",
                                  content := (processItems st.acc r.items).1.content,
                                  toolCallId := "", name := "",
                                  toolCalls := (processItems st.acc r.items).1.toolCalls }])
                          eng).2.1).1 := by
                  simp [runTurn, hne, hemp, hp, sendApiRequest]
                rw [hred]
                refine ih _ _ ?_
                simp only [sendApiRequest]
                rw [execPending_hist, List.append_assoc]
                refine TranscriptInv_append tools parse _ _ h ?_ (by simp [headNotTool])
                rw [List.singleton_append]
                refine ⟨?_, TranscriptInv_toolResultsMsgs tools parse tools eng _⟩
                intro _ _
                have heq : toolResultsMsgs tools eng
                      (handleToolCallsPending parse (processItems st.acc r.items).1.toolCalls)
                      ++ ([] : List ChatMessage)
                    = toolResultsMsgs tools eng (p0 :: ps) := by
                  rw [hp, List.append_nil]
                exact ⟨eng, [], heq.symm, trivial⟩

/-- Claim C4: a turn preserves the transcript invariant — after a turn,
every assistant message carrying `k` tool calls is followed by exactly
`k` tool-role messages, in the order of its `tool_calls` array, each with
the matching `tool_call_id`, the call's name, and the call's executed
ok/err result text as content. -/
theorem agent_c4_transcript_shape (tools : Registry) (parse : String → JValue)
    (st : ManagerState) (eng : Engine) (u : String) (rounds : List RoundInput)
    (h : TranscriptInv tools parse st.conversationHistory) :
    TranscriptInv tools parse
      (runConversationTurn tools parse st eng u rounds).1.conversationHistory := by
  unfold runConversationTurn
  by_cases hg : isConfigured st = true ∧ st.isProcessing = false
  · obtain ⟨hcfg, hproc⟩ := hg
    simp only [hcfg, hproc, and_self, if_true]
    show TranscriptInv tools parse
      (runTurn tools parse rounds (sendMessage st u).1 eng).1.conversationHistory
    refine runTurn_inv tools parse rounds _ eng ?_
    have hh : (sendMessage st u).1.conversationHistory
        = st.conversationHistory
          ++ [{ role := "user", content := u, toolCallId := "", name := "", toolCalls := [] }] := by
      simp [sendMessage, sendApiRequest, hcfg, hproc]
    rw [hh]
    refine TranscriptInv_append tools parse _ _ h ?_ (by simp [headNotTool])
    simp [TranscriptInv]
  · simp only [hg, if_false]
    show TranscriptInv tools parse (sendMessage st u).1.conversationHistory
    have hst : (sendMessage st u).1 = st := by
      rcases Decidable.em (isConfigured st = true) with hc | hc
      · have hp : st.isProcessing = true := by
          rcases Decidable.em (st.isProcessing = true) with hp | hp
          · exact hp
          · exact absurd ⟨hc, by simpa using hp⟩ hg
        simp [sendMessage, hc, hp]
      · have hc2 : isConfigured st = false := by simpa using hc
        simp [sendMessage, hc2]
    rw [hst]
    exact h

/-- A registry holding `set_tempo`, and a parser for its arguments. -/
def c4Tools : Registry :=
  [("set_tempo", fun args eng => .ret (setTempo args eng).1 (setTempo args eng).2)]

def c4Parse : String → JValue :=
  fun s => if s = "\x7b\"bpm\":128\x7d" then .obj [("bpm", .num 128)] else .null

/-- The spec's single-tool round trip: a first round streaming one
`set_tempo` call, a second round streaming the closing content. -/
def c4Round1 : RoundInput :=
  { items := [.chunk [("choices", .arr [.obj [("delta", .obj [("tool_calls", .arr [.obj
      [("index", .num 0), ("id", .str "call_1"),
       ("function", .obj [("name", .str "set_tempo"),
                          ("arguments", .str "\x7b\"bpm\":128\x7d")])]])])]])], .done],
    netError := none }

def c4Round2 : RoundInput :=
  { items := [.chunk [("choices", .arr [.obj [("delta", .obj
      [("content", .str "Tempo set to 128 BPM.")])]])], .done],
    netError := none }

theorem agent_c4_transcript_shape_witness :
    TranscriptInv c4Tools c4Parse
      (runConversationTurn c4Tools c4Parse idleState
        (some { tempo := 140, tracks := [], playing := false })
        "set tempo to 128" [c4Round1, c4Round2]).1.conversationHistory :=
  agent_c4_transcript_shape c4Tools c4Parse idleState
    (some { tempo := 140, tracks := [], playing := false })
    "set tempo to 128" [c4Round1, c4Round2] trivial

/-! ## Claim C9 -/

/-- The slot indices addressed by one chunk's tool-call delta array. -/
def tcIndices (chunk : JObj) : List Int :=
  match (chunk.getVal "choices").toArray with
  | [] => []
  | choice :: _ =>
    ((((choice.toObject.getVal "delta").toObject).getVal "tool_calls").toArray).map
      (fun tcv => (tcv.toObject.getVal "index").toInt)

/-- Shape of the slot accumulator while only index `n` is addressed:
either nothing has arrived yet, or slots `0 … n` exist and all slots
below `n` are untouched placeholders. -/
def C9Inv (n : Nat) (l : List JObj) : Prop :=
  l.length = 0 ∨ (l.length = n + 1 ∧ ∀ i < n, l.getD i emptyToolCall = emptyToolCall)

theorem C9Inv_applyToolCallDelta (n : Nat) (l : List JObj) (tcv : JValue)
    (hidx : (tcv.toObject.getVal "index").toInt = (n : Int))
    (hl : C9Inv n l) : C9Inv n (applyToolCallDelta l tcv) := by
  unfold applyToolCallDelta
  have hneg : ¬(tcv.toObject.getVal "index").toInt < 0 := by omega
  simp only [hneg, if_false]
  right
  constructor
  · rw [List.length_set, length_growTo, hidx]
    rcases hl with h0 | ⟨hlen, _⟩
    · simp [h0]
    · simp [hlen]
  · intro i hi
    have hne : ¬((tcv.toObject.getVal "index").toInt).toNat = i := by
      rw [hidx]
      simpa using Nat.ne_of_gt hi
    rw [getD_set_ne _ _ _ _ _ hne, getD_growTo]
    rcases hl with h0 | ⟨_, hslots⟩
    · rw [List.length_eq_zero] at h0
      simp [h0]
    · exact hslots i hi

theorem C9Inv_foldl (n : Nat) (entries : List JValue) (l : List JObj)
    (hall : ∀ tcv ∈ entries, (tcv.toObject.getVal "index").toInt = (n : Int))
    (hl : C9Inv n l) : C9Inv n (entries.foldl applyToolCallDelta l) := by
  induction entries generalizing l with
  | nil => simpa using hl
  | cons e rest ih =>
      simp only [List.foldl_cons]
      exact ih _ (fun tcv htv => hall tcv (List.mem_cons_of_mem _ htv))
        (C9Inv_applyToolCallDelta n l e (hall e (List.mem_cons_self _ _)) hl)

theorem C9Inv_chunk (n : Nat) (acc : StreamAcc) (chunk : JObj)
    (hall : ∀ ix ∈ tcIndices chunk, ix = (n : Int))
    (hl : C9Inv n acc.toolCalls) :
    C9Inv n (processStreamingChunk acc chunk).1.toolCalls := by
  by_cases herr : chunk.contains "error" = true
  · simpa [processStreamingChunk, herr] using hl
  · unfold processStreamingChunk
    simp only [herr, Bool.false_eq_true, if_false]
    cases hch : (chunk.getVal "choices").toArray with
    | nil => simpa using hl
    | cons choice rest =>
        simp only [toolCallsStep_toolCalls, thinkingStep_toolCalls, contentStep_toolCalls]
        refine C9Inv_foldl n _ _ ?_ hl
        intro tcv htv
        refine hall _ ?_
        unfold tcIndices
        rw [hch]
        exact List.mem_map_of_mem _ htv

theorem C9Inv_processChunks (n : Nat) (chunks : List JObj) (acc : StreamAcc)
    (hall : ∀ c ∈ chunks, ∀ ix ∈ tcIndices c, ix = (n : Int))
    (hl : C9Inv n acc.toolCalls) :
    C9Inv n (processChunks acc chunks).toolCalls := by
  induction chunks generalizing acc with
  | nil => simpa [processChunks] using hl
  | cons c rest ih =>
      exact ih _ (fun x hx => hall x (List.mem_cons_of_mem _ hx))
        (C9Inv_chunk n acc c (hall c (List.mem_cons_self _ _)) hl)

theorem toolResultsMsgs_getD_unknown (tools : Registry)
    (hlk : lookupTool tools "" = none) :
    ∀ (calls : List ToolCall) (eng : Engine) (i : Nat) (dc : ToolCall) (dm : ChatMessage),
      (∀ j, j ≤ i → (calls.getD j dc).name = "") → i < calls.length →
      (toolResultsMsgs tools eng calls).getD i dm
        = { role := "tool", content := "Unknown tool: ", toolCallId := (calls.getD i dc).id,
            name := "", toolCalls := [] } := by
  intro calls
  induction calls with
  | nil =>
      intro eng i dc dm hpre hi
      simp at hi
  | cons c cs ih =>
      intro eng i dc dm hpre hi
      have hc0 : c.name = "" := by simpa using hpre 0 (Nat.zero_le _)
      have hexec : executeTool tools c.name c.arguments eng
          = ({ success := false, result := "", error := "Unknown tool: " ++ c.name }, eng) := by
        unfold executeTool
        rw [hc0, hlk]
      cases i with
      | zero =>
          simp only [toolResultsMsgs, hexec, List.getD_cons_zero, toolMsgFor]
          rw [hc0]
          simp [String.append_empty]
      | succ i' =>
          simp only [toolResultsMsgs, hexec, List.getD_cons_succ]
          exact ih eng i' dc dm (fun j hj => by simpa using hpre (j + 1) (by omega))
            (by simpa using hi)

/-- A default message for out-of-range `getD` reads. -/
def dummyChatMsg : ChatMessage :=
  { role := "", content := "", toolCallId := "", name := "", toolCalls := [] }

/-- Claim C9: if the only tool-call fragments delivered during a stream
address some index `n > 0`, the accumulator materializes slots `0 … n-1`
as placeholder entries with empty id, name and arguments; at stream end
each placeholder is parsed into a pending call with empty name (and
arguments `parse ""`) and dispatched, producing — since the empty name is
not a registered tool — a tool-role transcript message whose content is
exactly `"Unknown tool: "`. -/
theorem agent_c9_placeholder_slots (tools : Registry) (parse : String → JValue)
    (chunks : List JObj) (n : Nat) (eng : Engine)
    (_hn : 0 < n)
    (hidx : ∀ c ∈ chunks, ∀ ix ∈ tcIndices c, ix = (n : Int))
    (hsome : (processChunks initialAcc chunks).toolCalls.length ≠ 0)
    (hreg : tools.map Prod.fst = registeredToolNames) :
    (processChunks initialAcc chunks).toolCalls.length = n + 1
    ∧ (∀ i, i < n →
        (processChunks initialAcc chunks).toolCalls.getD i emptyToolCall = emptyToolCall)
    ∧ (∀ i, i < n →
        (handleToolCallsPending parse (processChunks initialAcc chunks).toolCalls).getD i
            (mkPendingToolCall parse emptyToolCall)
          = { id := "", name := "", arguments := (parse "").toObject })
    ∧ (∀ i, i < n →
        (toolResultsMsgs tools eng
            (handleToolCallsPending parse (processChunks initialAcc chunks).toolCalls)).getD i
            dummyChatMsg
          = { role := "tool", content := "Unknown tool: ", toolCallId := "", name := "",
              toolCalls := [] }) := by
  have hlk : lookupTool tools "" = none := by
    refine lookupTool_eq_none_of_not_mem tools "" ?_
    rw [hreg]
    decide
  rcases C9Inv_processChunks n chunks initialAcc hidx (Or.inl rfl) with h0 | ⟨hlen, hslots⟩
  · exact absurd h0 hsome
  · have hempty : mkPendingToolCall parse emptyToolCall
        = { id := "", name := "", arguments := (parse "").toObject } := rfl
    refine ⟨hlen, fun i hi => hslots i hi, fun i hi => ?_, fun i hi => ?_⟩
    · rw [handleToolCallsPending, getD_map, hslots i hi, hempty]
    · have hcall : (handleToolCallsPending parse
            (processChunks initialAcc chunks).toolCalls).getD i
            (mkPendingToolCall parse emptyToolCall)
          = { id := "", name := "", arguments := (parse "").toObject } := by
        rw [handleToolCallsPending, getD_map, hslots i hi, hempty]
      have h := toolResultsMsgs_getD_unknown tools hlk
        (handleToolCallsPending parse (processChunks initialAcc chunks).toolCalls) eng i
        (mkPendingToolCall parse emptyToolCall) dummyChatMsg
        (fun j hj => by
          rw [handleToolCallsPending, getD_map, hslots j (lt_of_le_of_lt hj hi), hempty])
        (by
          rw [handleToolCallsPending, List.length_map, hlen]
          omega)
      rw [h, hcall]

/-- A registry with exactly the registered tool names (handler bodies are
irrelevant to the unknown-name dispatch). -/
def c9Tools : Registry :=
  registeredToolNames.map
    (fun nm => (nm, fun _ eng => HandlerOutcome.ret { success := true, result := "", error := "" } eng))

/-- A stream whose only tool-call fragment addresses index 2. -/
def c9Chunks : List JObj :=
  [ [("choices", .arr [.obj [("delta", .obj [("tool_calls", .arr [.obj
      [("index", .num 2), ("id", .str "call_x"),
       ("function", .obj [("name", .str "does_not_exist"),
                          ("arguments", .str "\x7b\x7d")])]])])]])] ]

theorem agent_c9_placeholder_slots_witness :
    (processChunks initialAcc c9Chunks).toolCalls.length = 2 + 1
    ∧ (∀ i, i < 2 →
        (processChunks initialAcc c9Chunks).toolCalls.getD i emptyToolCall = emptyToolCall)
    ∧ (∀ i, i < 2 →
        (handleToolCallsPending JValue.str (processChunks initialAcc c9Chunks).toolCalls).getD i
            (mkPendingToolCall JValue.str emptyToolCall)
          = { id := "", name := "", arguments := (JValue.str "").toObject })
    ∧ (∀ i, i < 2 →
        (toolResultsMsgs c9Tools none
            (handleToolCallsPending JValue.str (processChunks initialAcc c9Chunks).toolCalls)).getD i
            dummyChatMsg
          = { role := "tool", content := "Unknown tool: ", toolCallId := "", name := "",
              toolCalls := [] }) :=
  agent_c9_placeholder_slots c9Tools JValue.str c9Chunks 2 none
    (by decide) (by decide) (by decide) (by rfl)

end AgenticLMMS
